import Mathlib

/-!
Verification of the spotipi-eink display service
(`src/python/spotipiEinkDisplay.py`) against its design specification.

The Python source is shallowly embedded below: pure helpers become Lean
functions, loops become fueled structural recursions (with fuel chosen
large enough to cover every real execution), and the control loop's
iterations become explicit state-passing functions.  Machine integers are
modelled as `Nat`/`Int` (Python integers are unbounded, so no wrap-around
modelling is needed).
-/

namespace Spotipi

/-! ### Python string helpers

`' '.join(tokens)` and `str.split()` as used by `_break_fix`. -/

/-- Python `' '.join(l)`: tokens joined with a single space. -/
def joinSpace : List String → String
  | [] => ""
  | [t] => t
  | t :: ts => t ++ " " ++ joinSpace ts

/-- Helper for `pySplit`: walks the character list with an accumulator of the
current (reversed) word, exactly like Python `str.split()` with no argument:
runs of whitespace separate words and produce no empty tokens. -/
def pySplitChars : List Char → List Char → List String
  | [], [] => []
  | [], acc => [String.mk acc.reverse]
  | c :: cs, acc =>
    if c.isWhitespace then
      if acc.isEmpty then pySplitChars cs []
      else String.mk acc.reverse :: pySplitChars cs []
    else pySplitChars cs (c :: acc)

/-- Python `s.split()` (no separator argument). -/
def pySplit (s : String) : List String := pySplitChars s.toList []

/-! ### TextFlow: `_break_fix`

The binary search is the `while lo < hi` loop of `_break_fix`
(lines 147–156).  It is embedded with an explicit fuel argument; each
iteration strictly shrinks `hi - lo`, so fuel `hi - lo + 1` always
suffices and the fueled function agrees with the Python loop. -/

/-- The `while lo < hi` loop of `_break_fix`:
`mid = (lo + hi + 1) // 2`; if the first `mid` tokens joined measure within
`w`, move `lo` up to `mid`, else move `hi` down to `mid - 1`. -/
def bsearchAux (m : String → Nat) (w : Nat) (toks : List String) :
    Nat → Nat → Nat → Nat
  | 0, lo, _ => lo
  | fuel + 1, lo, hi =>
    if lo < hi then
      let mid := (lo + hi + 1) / 2
      if m (joinSpace (toks.take mid)) ≤ w then bsearchAux m w toks fuel mid hi
      else bsearchAux m w toks fuel lo (mid - 1)
    else lo

/-- The final value of `lo` produced by `_break_fix`'s binary search on the
token list `toks` (search range `0 .. len(toks)`). -/
def bsearchFix (m : String → Nat) (w : Nat) (toks : List String) : Nat :=
  bsearchAux m w toks (toks.length + 1) 0 toks.length

/-- One emitted line of `_break_fix`: the tokens of the segment, the joined
text `' '.join(tokens[:lo])` that is yielded, and the measured width
`int(draw.textlength(t))` that is yielded with it. -/
structure Seg where
  toks : List String
  text : String
  width : Nat
deriving DecidableEq, Repr

/-- The generator body of `_break_fix` on a token list (lines 147–160):
binary-search for `lo`, yield `(' '.join(text[:lo]), w)`, then recurse on
`text[lo:]`; the recursive call returns immediately when the suffix is the
empty list (`if not text: return`).  The Boolean records whether the
recursion reached the empty suffix within the given fuel — `false` means
the fuel ran out, i.e. the Python generator had not terminated after that
many yields. -/
def breakFixGo (m : String → Nat) (w : Nat) : Nat → List String → List Seg × Bool
  | 0, _ => ([], false)
  | fuel + 1, toks =>
    let lo := bsearchFix m w toks
    let seg : Seg := ⟨toks.take lo, joinSpace (toks.take lo), m (joinSpace (toks.take lo))⟩
    let rest := toks.drop lo
    if rest.isEmpty then ([seg], true)
    else
      let r := breakFixGo m w fuel rest
      (seg :: r.1, r.2)

/-- `_break_fix` entry point on its string argument (lines 143–146):
`None` and the empty string yield no segments (`if not text: return`);
a non-empty string is split into tokens and handed to the generator body.
Note a whitespace-only string passes the emptiness test and splits to `[]`.
-/
def breakFixStr (m : String → Nat) (w fuel : Nat) : Option String → List Seg × Bool
  | none => ([], true)
  | some s => if s = "" then ([], true) else breakFixGo m w fuel (pySplit s)

/-- "Monotonic measurement function": the measured width of a joined token
list never decreases when more tokens are appended (width non-decreasing in
token count). -/
def MonoMeasure (m : String → Nat) : Prop :=
  ∀ l t : List String, m (joinSpace l) ≤ m (joinSpace (l ++ t))

/-! ### TextBlockRenderer: `_fit_text_top_down` / `_fit_text_bottom_up`

Only the vertical geometry is modelled: the draw loop of both renderers
walks the pieces, drawing the primary glyphs of piece `i` at vertical
position `y + i*font_size` and accumulating `font_size` into
`h_taken_by_text` per piece.  The shadow pass draws at `y + shadow offset`
and adds no height, so it does not affect the modelled quantities. -/

/-- The drawing loop shared by both renderers: returns the list of primary
draw y-positions (one per piece) and the accumulated `h_taken_by_text`. -/
def fitDrawLoop : List Seg → Int → Int → List Int × Int
  | [], _, _ => ([], 0)
  | _ :: ps, y, fs =>
    let r := fitDrawLoop ps (y + fs) fs
    (y :: r.1, r.2 + fs)

/-- `_fit_text_top_down` (lines 162–183): wrap the text, then draw from the
anchor downward.  Returns the draw positions and the height consumed. -/
def fit_text_top_down (m : String → Nat) (w fuel : Nat) (text : Option String)
    (y_offset font_size : Int) : List Int × Int :=
  let pieces := (breakFixStr m w fuel text).1
  fitDrawLoop pieces y_offset font_size

/-- `_fit_text_bottom_up` (lines 185–207): wrap the text; when more than one
line results, shift the anchor up by `(len(pieces) - 1) * font_size`; then
draw top-down from the shifted anchor. -/
def fit_text_bottom_up (m : String → Nat) (w fuel : Nat) (text : Option String)
    (y_offset font_size : Int) : List Int × Int :=
  let pieces := (breakFixStr m w fuel text).1
  let y0 := if pieces.length > 1 then y_offset - ((pieces.length : Int) - 1) * font_size
            else y_offset
  fitDrawLoop pieces y0 font_size

/-! ### FrameCompositor: `_gen_pic`

Images are modelled at the level the claims speak about: their pixel
dimensions.  Each PIL operation used by `_gen_pic` is embedded by its
documented effect on dimensions:
* `ImageOps.fit(img, size)` returns an image of exactly `size`;
* `img.crop((l, u, r, b))` returns an image of size `(r-l, b-u)`
  (out-of-range boxes are zero-padded, never clipped);
* `Image.new(mode, size)` returns an image of exactly `size`;
* `paste`, `filter` (blur) and `ImageDraw` text mutate pixels in place and
  never change dimensions;
* `img.resize(size)` returns an image of exactly `size`. -/

/-- An image, abstracted to its pixel dimensions. -/
structure PImage where
  width : Nat
  height : Nat
deriving DecidableEq, Repr

/-- `ImageOps.fit(image, target_size, centering=(0.0, 0.0))`. -/
def imageFit (_img : PImage) (tw th : Nat) : PImage := ⟨tw, th⟩

/-- `image.crop((l, u, r, b))` — result size is the box size. -/
def imageCrop (_img : PImage) (l u r b : Nat) : PImage := ⟨r - l, b - u⟩

/-- `Image.new('RGB', (w, h))`. -/
def imageNew (w h : Nat) : PImage := ⟨w, h⟩

/-- `base.paste(src, (x, y))` mutates pixels of `base` in place. -/
def imagePaste (base : PImage) (_src : PImage) (_x _y : Int) : PImage := base

/-- `img.filter(ImageFilter.GaussianBlur(r))`. -/
def imageBlur (img : PImage) (_r : Nat) : PImage := img

/-- `img.resize((w, h), Image.LANCZOS)`. -/
def imageResize (_img : PImage) (w h : Nat) : PImage := ⟨w, h⟩

/-- Python `range(start, stop, step)` as a list, with fuel (the Python
`range` with a positive step never needs more than `stop + 1` elements;
`step = 0` raises in Python and is outside the modelled domain). -/
def rangeStepAux (step : Nat) : Nat → Nat → Nat → List Nat
  | 0, _, _ => []
  | fuel + 1, cur, stop => if cur < stop then cur :: rangeStepAux step fuel (cur + step) stop else []

/-- `range(0, stop, step)` as used by the `repeat` background tiling. -/
def rangeStep (stop step : Nat) : List Nat := rangeStepAux step (stop + 1) 0 stop

/-- The configuration values `_gen_pic` reads from `eink_options.ini`. -/
structure Config where
  width : Nat
  height : Nat
  album_cover_small_px : Nat
  offset_px_left : Nat
  offset_px_right : Nat
  offset_px_top : Nat
  offset_px_bottom : Nat
  offset_text_px_shadow : Nat
  text_direction : String
  background_mode : String
  background_blur : Nat
  album_cover_small : Bool
  font_size_title : Nat
  font_size_artist : Nat
deriving Repr

/-- `_gen_pic` (lines 270–384), dimension-relevant part: background fit /
repeat / fallback crop, optional blur, optional small-cover paste.  The
subsequent `_fit_text_*` calls draw through `ImageDraw` on `image_new` in
place and cannot change its dimensions, so they are not repeated here. -/
def gen_pic (cfg : Config) (image : PImage) (show_small_cover : Bool) : PImage :=
  let bg_w := image.width
  let bg_h := image.height
  let image_new :=
    if cfg.background_mode = "fit" then
      if bg_w ≠ cfg.width ∨ bg_h ≠ cfg.height then
        imageFit image cfg.width cfg.height
      else
        imageCrop image 0 0 cfg.width cfg.height
    else if cfg.background_mode = "repeat" then
      (rangeStep cfg.width bg_w).foldl
        (fun (acc : PImage) (x : Nat) =>
          (rangeStep cfg.height bg_h).foldl
            (fun (acc2 : PImage) (y : Nat) => imagePaste acc2 image (x : Int) (y : Int)) acc)
        (imageNew cfg.width cfg.height)
    else
      imageCrop image 0 0 cfg.width cfg.height
  let image_new :=
    if cfg.album_cover_small ∧ cfg.background_blur > 0 then
      imageBlur image_new cfg.background_blur
    else image_new
  let image_new :=
    if show_small_cover ∧ cfg.album_cover_small then
      let cover_smaller := imageResize image cfg.album_cover_small_px cfg.album_cover_small_px
      let album_pos_x := Int.fdiv ((image_new.width : Int) - (cfg.album_cover_small_px : Int)) 2
      imagePaste image_new cover_smaller album_pos_x (cfg.offset_px_top : Int)
    else image_new
  image_new

/-! ### RefreshCounter: the counter logic of `_display_update_process`

Lines 425–433: `if self.pic_counter > refresh_limit: clean; pic_counter = 0`,
then the frame is pushed, then `pic_counter += 1`. -/

/-- Outcome of the counter logic around one frame push. -/
structure PushResult where
  /-- whether `_display_clean` ran (before the push) -/
  cleared : Bool
  /-- the counter value at the moment `_display_image` runs -/
  counter_at_push : Nat
  /-- the counter value after `pic_counter += 1` -/
  counter_after : Nat
deriving DecidableEq, Repr

/-- The clear-check / push / increment sequence of `_display_update_process`
for one call, given the configured `refresh_limit` and the incoming counter.
-/
def display_update_counter (refresh_limit counter : Nat) : PushResult :=
  if refresh_limit < counter then ⟨true, 0, 1⟩
  else ⟨false, counter, counter + 1⟩

/-- Counter value after `n` calls of `_display_update_process`, starting
from the constructor's `pic_counter = 0`. -/
def counter_after_pushes (refresh_limit : Nat) : Nat → Nat
  | 0 => 0
  | n + 1 => (display_update_counter refresh_limit (counter_after_pushes refresh_limit n)).counter_after

/-- The `PushResult` of the `n`-th push (`n ≥ 1`), starting from counter 0. -/
def nth_push (refresh_limit n : Nat) : PushResult :=
  display_update_counter refresh_limit (counter_after_pushes refresh_limit (n - 1))

/-! ### PlaybackPoller: one iteration of `start` (lines 489–514) -/

/-- The `[song_title, cover_url, artist]` triple `_get_song_info` returns. -/
structure SongInfo where
  title : String
  cover : String
  artist : String
deriving DecidableEq, Repr

/-- The debounce key `song_request[0] + song_request[1]`. -/
def track_key (s : SongInfo) : String := s.title ++ s.cover

/-- One poll iteration of the main loop, restricted to its debounce state:
given the stored `song_prev` and the poll result, returns the new
`song_prev` and whether `_display_update_process` was invoked. -/
def loop_iter (prev : String) (res : Option SongInfo) : String × Bool :=
  match res with
  | some s =>
    let key := track_key s
    if prev ≠ key then (key, true) else (prev, false)
  | none => ("NO_SONG", true)

/-! ### IdleGallery: `_get_idle_image` (lines 122–137) -/

/-- One `_get_idle_image` call: given the discovered image list, the default
image, the shuffle flag with its random pick (the index `random.choice`
would select), and the cursor, returns the opened image path and the new
cursor. -/
def get_idle_image (images : List String) (default_img : String) (shuffle : Bool)
    (rand_pick : Nat) (idx : Nat) : String × Nat :=
  if images.isEmpty then (default_img, idx)
  else if shuffle then (images.getD (rand_pick % images.length) "", idx)
  else (images.getD idx "", (idx + 1) % images.length)

/-- The trace of `n` consecutive non-shuffle `_get_idle_image` calls from
cursor `idx`: the selected paths in order, and the final cursor. -/
def idle_trace (images : List String) (default_img : String) : Nat → Nat → List String × Nat
  | 0, idx => ([], idx)
  | n + 1, idx =>
    let r := get_idle_image images default_img false 0 idx
    let rec_r := idle_trace images default_img n r.2
    (r.1 :: rec_r.1, rec_r.2)

/-! ### `_get_song_info` with the `limit_recursion` guard

The decorator (lines 15–28) keeps a shared call counter: each wrapper call
increments it, runs the body only while the incremented value is below the
limit, and returns `None` otherwise; the decrement on exit restores the
counter, so every top-level call starts from 0.  The body's outcome depends
on what the external source reports at each nested attempt, modelled by an
oracle `src : Nat → SourceResult` giving the result seen by the attempt
with call-counter value `n`. -/

/-- What one query of the external track source can report, as branched on
by `_get_song_info` (lines 435–479). -/
inductive SourceResult where
  /-- `currently_playing_type == 'track'` with its fields -/
  | track (song cover artist : String)
  /-- `currently_playing_type == 'episode'` with its fields -/
  | episode (song cover artist : String)
  /-- `currently_playing_type == 'ad'` -/
  | ad
  /-- `currently_playing_type == 'unknown'` -/
  | unknown
  /-- any other `currently_playing_type` (logged, returns `[]`) -/
  | unsupported (s : String)
  /-- a `TypeError` raised while reading the result (retries) -/
  | typeErr
  /-- `currently_playing()` returned `None` (nothing playing) -/
  | nothing
  /-- no auth token could be obtained -/
  | noToken
deriving DecidableEq, Repr

/-- One wrapper call of the decorated `_get_song_info`, entered with shared
counter `count`: the wrapper increments to `c = count + 1`; if `c < limit`
the body runs (seeing `src c`), otherwise the wrapper returns `None`.
`unknown` and `TypeError` make the body re-call the wrapper at counter `c`.
The fuel is a structural bound only; `fuel = limit` covers every execution
since the counter grows by one per nested call and recursion stops at
`limit`. -/
def get_song_info_call (src : Nat → SourceResult) (limit : Nat) :
    Nat → Nat → Option (List String)
  | 0, _ => none
  | fuel + 1, count =>
    let c := count + 1
    if c < limit then
      match src c with
      | .track song cover artist => some [song, cover, artist]
      | .episode song cover artist => some [song, cover, artist]
      | .ad => some []
      | .unknown => get_song_info_call src limit fuel c
      | .typeErr => get_song_info_call src limit fuel c
      | .unsupported _ => some []
      | .nothing => some []
      | .noToken => some []
    else none

/-- A top-level `self._get_song_info()` call: limit 10 (from
`@limit_recursion(limit=10)`), shared counter starting at 0. -/
def get_song_info (src : Nat → SourceResult) : Option (List String) :=
  get_song_info_call src 10 10 0

/-- Python truthiness of the poll result as tested by `if song_request:`:
`None` and `[]` are falsy (idle), a non-empty list is truthy. -/
def truthy : Option (List String) → Bool
  | some (_ :: _) => true
  | _ => false

/-! ### The bounded idle wait of `start` (lines 504–514) -/

/-- The inner idle-wait loop: while `elapsed < idle_display_time`, sleep 5,
add 5 to `elapsed`, and poll; a truthy poll breaks the loop.  Returns the
list of sleep durations performed.  `poll i` is the result of the poll made
in the `i`-th increment (1-based).  Fuel `idle_display_time + 1` always
suffices since `elapsed` grows by 5 per iteration. -/
def idle_wait_sleeps (poll : Nat → Bool) (idle_display_time : Nat) :
    Nat → Nat → Nat → List Nat
  | 0, _, _ => []
  | fuel + 1, elapsed, i =>
    if elapsed < idle_display_time then
      5 :: (if poll i then [] else idle_wait_sleeps poll idle_display_time fuel (elapsed + 5) (i + 1))
    else []

/-- The sleeps performed by one main-loop iteration after its display
update: a playing iteration falls through to `time.sleep(self.delay)`; an
idle iteration runs the bounded wait and then `continue`s, skipping the
trailing delay entirely. -/
def main_iter_sleeps (song_playing : Bool) (poll : Nat → Bool)
    (idle_display_time delay : Nat) : List Nat :=
  if song_playing then [delay]
  else idle_wait_sleeps poll idle_display_time (idle_display_time + 1) 0 1

/-! ## Lemmas about the `_break_fix` binary search -/

theorem bsearchAux_le (m : String → Nat) (w : Nat) (toks : List String) :
    ∀ fuel lo hi, lo ≤ hi → bsearchAux m w toks fuel lo hi ≤ hi := by
  intro fuel
  induction fuel with
  | zero => intro lo hi h; exact h
  | succ n ih =>
    intro lo hi h
    simp only [bsearchAux]
    split
    · split
      · exact ih _ _ (by omega)
      · have := ih lo ((lo + hi + 1) / 2 - 1) (by omega)
        omega
    · exact h

theorem bsearchAux_sound (m : String → Nat) (w : Nat) (toks : List String) :
    ∀ fuel lo hi, (lo = 0 ∨ m (joinSpace (toks.take lo)) ≤ w) →
      (bsearchAux m w toks fuel lo hi = 0 ∨
        m (joinSpace (toks.take (bsearchAux m w toks fuel lo hi))) ≤ w) := by
  intro fuel
  induction fuel with
  | zero => intro lo hi h; exact h
  | succ n ih =>
    intro lo hi h
    simp only [bsearchAux]
    split
    · split
      · next hm => exact ih _ _ (Or.inr hm)
      · exact ih _ _ h
    · exact h

theorem bsearchAux_pos (m : String → Nat) (w : Nat) (toks : List String)
    (h1 : m (joinSpace (toks.take 1)) ≤ w) :
    ∀ fuel lo hi, lo ≤ hi → 1 ≤ hi → hi - lo < fuel →
      1 ≤ bsearchAux m w toks fuel lo hi := by
  intro fuel
  induction fuel with
  | zero => omega
  | succ n ih =>
    intro lo hi hlh hhi hfuel
    simp only [bsearchAux]
    split
    · next hlt =>
      split
      · exact ih _ _ (by omega) hhi (by omega)
      · next hm =>
        have hmid1 : (lo + hi + 1) / 2 ≠ 1 := by
          intro he
          rw [he] at hm
          exact hm h1
        have hmid_ge : 1 ≤ (lo + hi + 1) / 2 := by omega
        exact ih _ _ (by omega) (by omega) (by omega)
    · omega

theorem bsearchFix_le (m : String → Nat) (w : Nat) (toks : List String) :
    bsearchFix m w toks ≤ toks.length :=
  bsearchAux_le m w toks _ 0 toks.length (Nat.zero_le _)

theorem bsearchFix_sound (m : String → Nat) (w : Nat) (toks : List String) :
    bsearchFix m w toks = 0 ∨ m (joinSpace (toks.take (bsearchFix m w toks))) ≤ w :=
  bsearchAux_sound m w toks _ 0 toks.length (Or.inl rfl)

theorem bsearchFix_pos (m : String → Nat) (w : Nat) (toks : List String)
    (hne : toks ≠ []) (h1 : m (joinSpace (toks.take 1)) ≤ w) :
    1 ≤ bsearchFix m w toks := by
  have hlen : 1 ≤ toks.length := by
    cases toks with
    | nil => exact absurd rfl hne
    | cons a l => simp
  exact bsearchAux_pos m w toks h1 _ 0 toks.length (Nat.zero_le _) hlen (by omega)

/-! ## C1, C2: TextFlow correctness and the over-wide-token divergence -/

/-- On a non-empty token list whose every token measures within the budget,
`_break_fix` terminates, its segments' tokens concatenate back to the input
in order, and every emitted segment measures within the budget. -/
theorem breakFixGo_correct (m : String → Nat) (w : Nat) :
    ∀ fuel toks, toks ≠ [] → toks.length < fuel → (∀ t ∈ toks, m t ≤ w) →
      (breakFixGo m w fuel toks).2 = true ∧
      ((breakFixGo m w fuel toks).1.map Seg.toks).flatten = toks ∧
      ∀ s ∈ (breakFixGo m w fuel toks).1, s.width ≤ w := by
  intro fuel
  induction fuel with
  | zero => intro toks _ h; omega
  | succ n ih =>
    intro toks hne hlen htok
    have htake1 : m (joinSpace (toks.take 1)) ≤ w := by
      cases toks with
      | nil => exact absurd rfl hne
      | cons a l =>
        have : joinSpace ((a :: l).take 1) = a := rfl
        rw [this]
        exact htok a (List.mem_cons_self a l)
    have hlo1 : 1 ≤ bsearchFix m w toks := bsearchFix_pos m w toks hne htake1
    have hlole : bsearchFix m w toks ≤ toks.length := bsearchFix_le m w toks
    have hwidth : m (joinSpace (toks.take (bsearchFix m w toks))) ≤ w := by
      rcases bsearchFix_sound m w toks with h0 | hok
      · omega
      · exact hok
    simp only [breakFixGo]
    by_cases hrest : (toks.drop (bsearchFix m w toks)).isEmpty
    · rw [if_pos hrest]
      refine ⟨rfl, ?_, ?_⟩
      · have hdrop : toks.drop (bsearchFix m w toks) = [] := List.isEmpty_iff.mp hrest
        have := List.take_append_drop (bsearchFix m w toks) toks
        rw [hdrop, List.append_nil] at this
        simpa using this
      · intro s hs
        simp only [List.mem_singleton] at hs
        subst hs
        exact hwidth
    · rw [if_neg hrest]
      have hdropne : toks.drop (bsearchFix m w toks) ≠ [] := by
        intro h
        rw [h] at hrest
        exact hrest rfl
      have hdroplen : (toks.drop (bsearchFix m w toks)).length < n := by
        have := List.length_drop (bsearchFix m w toks) toks
        omega
    -- every token of the dropped suffix is a token of the input
      have hdroptok : ∀ t ∈ toks.drop (bsearchFix m w toks), m t ≤ w := fun t ht =>
        htok t (List.mem_of_mem_drop ht)
      obtain ⟨hdone, hjoin, hwid⟩ := ih (toks.drop (bsearchFix m w toks)) hdropne hdroplen hdroptok
      refine ⟨hdone, ?_, ?_⟩
      · simp only [List.map_cons, List.flatten_cons, hjoin]
        exact List.take_append_drop _ toks
      · intro s hs
        rcases List.mem_cons.mp hs with h | h
        · subst h; exact hwidth
        · exact hwid s h

/-- The character-count measurer is monotonic: joining more tokens never
shortens the string. -/
theorem joinSpace_length_mono : ∀ l t : List String,
    (joinSpace l).length ≤ (joinSpace (l ++ t)).length := by
  intro l
  induction l with
  | nil =>
    intro t
    simp [joinSpace]
  | cons a l' ih =>
    intro t
    cases l' with
    | nil =>
      cases t with
      | nil => exact Nat.le_refl _
      | cons b t' =>
        show (joinSpace [a]).length ≤ (joinSpace (a :: b :: t')).length
        simp only [joinSpace, String.length_append]
        omega
    | cons b l'' =>
      have h := ih t
      show (joinSpace (a :: b :: l'')).length ≤ (joinSpace (a :: (b :: l'' ++ t))).length
      have hbt : b :: l'' ++ t = b :: (l'' ++ t) := rfl
      rw [hbt]
      simp only [joinSpace, String.length_append]
      simpa using h

/-- C1's failing scenario: the per-character measurer, budget 5, and the
single 8-character token. -/
def wideToks : List String := ["abcdefgh"]

/-- C1: the claim fails on the code, and in the spec's own terms the code is
the slip.  With budget 5 and a single token measuring 8, `_break_fix`'s
binary search ends with `lo = 0`; the generator then yields the empty
segment `('', 0)` and recurses on the *unchanged* token list, so it never
emits the token and never terminates: for every fuel bound the embedding
reports non-termination (`false`) and only empty segments — contradicting
the spec's requirement that the over-wide token be emitted alone and that
the algorithm not loop forever on the empty search range. -/
theorem break_fix_overwide_token_diverges :
    ∀ fuel, breakFixGo (fun s => s.length) 5 fuel wideToks =
      (List.replicate fuel ⟨[], "", 0⟩, false) := by
  intro fuel
  induction fuel with
  | zero => rfl
  | succ n ih =>
    have hstep : breakFixGo (fun s => s.length) 5 (n + 1) wideToks =
        (⟨[], "", 0⟩ :: (breakFixGo (fun s => s.length) 5 n wideToks).1,
         (breakFixGo (fun s => s.length) 5 n wideToks).2) := rfl
    rw [hstep, ih, List.replicate_succ]

/-- C2 as stated is false: the per-character measurer is monotonic, yet on
the single over-wide token `_break_fix` never terminates — after nine
yields it has emitted only empty segments whose rejoined tokens are `[]`,
not the original sequence, and the recursion is still not done. -/
theorem break_fix_rejoin_counterexample :
    MonoMeasure (fun s => s.length) ∧
    (breakFixGo (fun s => s.length) 5 9 wideToks).2 = false ∧
    ((breakFixGo (fun s => s.length) 5 9 wideToks).1.map Seg.toks).flatten = [] ∧
    ((breakFixGo (fun s => s.length) 5 9 wideToks).1.map Seg.toks).flatten ≠ wideToks := by
  refine ⟨joinSpace_length_mono, ?_, ?_, ?_⟩ <;> decide

/-- C2 (amended): for every monotonic measurer and non-empty token sequence
in which each individual token measures within the budget, `_break_fix`
terminates (fuel `length + 1` suffices), the emitted segments' tokens
rejoined in emission order reproduce the input exactly, and every emitted
segment's measured width is within the budget. -/
theorem break_fix_partition_and_budget (m : String → Nat) (w : Nat)
    (toks : List String) (hmono : MonoMeasure m) (hne : toks ≠ [])
    (hfit : ∀ t ∈ toks, m t ≤ w) :
    (breakFixGo m w (toks.length + 1) toks).2 = true ∧
    ((breakFixGo m w (toks.length + 1) toks).1.map Seg.toks).flatten = toks ∧
    ∀ s ∈ (breakFixGo m w (toks.length + 1) toks).1, s.width ≤ w :=
  breakFixGo_correct m w (toks.length + 1) toks hne (by omega) hfit

/-- Witness for C2's amended theorem at a concrete monotonic measurer and
token list. -/
theorem break_fix_partition_and_budget_witness :
    MonoMeasure (fun s => s.length) ∧ (["ab", "cd", "efg"] : List String) ≠ [] ∧
    (∀ t ∈ (["ab", "cd", "efg"] : List String), (fun s : String => s.length) t ≤ 5) ∧
    ((breakFixGo (fun s => s.length) 5 4 ["ab", "cd", "efg"]).2 = true ∧
     ((breakFixGo (fun s => s.length) 5 4 ["ab", "cd", "efg"]).1.map Seg.toks).flatten =
       ["ab", "cd", "efg"] ∧
     ∀ s ∈ (breakFixGo (fun s => s.length) 5 4 ["ab", "cd", "efg"]).1, s.width ≤ 5) :=
  ⟨joinSpace_length_mono, by decide, by decide,
    break_fix_partition_and_budget (fun s => s.length) 5 ["ab", "cd", "efg"]
      joinSpace_length_mono (by decide) (by decide)⟩

/-! ## C3: the refresh counter -/

/-- C3 as stated is false: with threshold 20 and the counter starting at 0,
the counter is incremented once *after* each push, so before the 21st push
the counter reads 20 (not 21), `20 > 20` fails, and no clear is triggered
on the 21st push. -/
theorem refresh_counter_counterexample :
    counter_after_pushes 20 20 = 20 ∧ (nth_push 20 21).cleared = false := by
  decide

/-- C3 (amended): with threshold 20 and the counter starting at 0, neither
the 20th nor the 21st push triggers a clear; the 22nd push (counter value
21 before the check) triggers the full-display clear, resets the counter to
0 before the frame push (so the cleared display immediately receives the
new frame), and the counter reads 1 after that push's increment. -/
theorem refresh_counter_clear_on_22nd :
    (nth_push 20 20).cleared = false ∧
    (nth_push 20 21).cleared = false ∧
    counter_after_pushes 20 21 = 21 ∧
    nth_push 20 22 = ⟨true, 0, 1⟩ := by
  decide

/-! ## C4: debounce of repeated identical tracks -/

/-- C4: if two consecutive polls return tracks with the same
`title + coverUrl` key (artists may differ) and the first of them is new
relative to the stored key, exactly the first iteration requests a frame
build; the second stores no new key and rebuilds nothing. -/
theorem poller_debounce (prev : String) (a b : SongInfo)
    (htitle : a.title = b.title) (hcover : a.cover = b.cover)
    (hnew : prev ≠ track_key a) :
    (loop_iter prev (some a)).2 = true ∧
    (loop_iter (loop_iter prev (some a)).1 (some b)).2 = false ∧
    (loop_iter (loop_iter prev (some a)).1 (some b)).1 = (loop_iter prev (some a)).1 := by
  have hkey : track_key a = track_key b := by
    simp [track_key, htitle, hcover]
  have h1 : loop_iter prev (some a) = (track_key a, true) := by
    simp [loop_iter, hnew]
  have h2 : loop_iter (track_key a) (some b) = (track_key a, false) := by
    simp [loop_iter, hkey]
  rw [h1, h2]
  exact ⟨rfl, rfl, rfl⟩

/-- Witness for C4 at a concrete state and pair of tracks differing only in
artist. -/
theorem poller_debounce_witness :
    ("" : String) ≠ track_key ⟨"Song", "http://cover", "Artist A"⟩ ∧
    (loop_iter "" (some ⟨"Song", "http://cover", "Artist A"⟩)).2 = true ∧
    (loop_iter (loop_iter "" (some ⟨"Song", "http://cover", "Artist A"⟩)).1
      (some ⟨"Song", "http://cover", "Artist B"⟩)).2 = false ∧
    (loop_iter (loop_iter "" (some ⟨"Song", "http://cover", "Artist A"⟩)).1
      (some ⟨"Song", "http://cover", "Artist B"⟩)).1 =
      (loop_iter "" (some ⟨"Song", "http://cover", "Artist A"⟩)).1 := by
  have h := poller_debounce "" ⟨"Song", "http://cover", "Artist A"⟩
    ⟨"Song", "http://cover", "Artist B"⟩ rfl rfl (by decide)
  exact ⟨by decide, h.1, h.2.1, h.2.2⟩

/-! ## C5: the composited frame always has canvas dimensions -/

/-- Pasting tiles never changes the base image's dimensions (each `paste`
mutates the base in place). -/
theorem foldl_paste_fixed (img : PImage) (xi : Int) :
    ∀ (l : List Nat) (base : PImage),
      l.foldl (fun (acc : PImage) (y : Nat) => imagePaste acc img xi (y : Int)) base = base := by
  intro l
  induction l with
  | nil => intro base; rfl
  | cons y ys ih => intro base; simpa [imagePaste] using ih base

/-- The nested tiling loops of the `repeat` branch leave the freshly created
canvas-sized image unchanged in dimensions. -/
theorem repeat_tiling_fixed (img : PImage) (tw th bw bh : Nat) :
    (rangeStep tw bw).foldl
      (fun (acc : PImage) (x : Nat) =>
        (rangeStep th bh).foldl
          (fun (acc2 : PImage) (y : Nat) => imagePaste acc2 img (x : Int) (y : Int)) acc)
      (imageNew tw th) = imageNew tw th := by
  generalize rangeStep tw bw = xs
  induction xs with
  | nil => rfl
  | cons x xs ih =>
    rw [List.foldl_cons, foldl_paste_fixed img (x : Int) (rangeStep th bh) (imageNew tw th)]
    exact ih

/-- C5: for every decoded source image (PIL images have positive
dimensions) and every background mode — `fit`, `repeat`, or any
unrecognized string — the frame `_gen_pic` produces has exactly the
configured canvas dimensions. -/
theorem gen_pic_canvas_dims (cfg : Config) (img : PImage) (show_small_cover : Bool)
    (hw : 0 < img.width) (hh : 0 < img.height) :
    (gen_pic cfg img show_small_cover).width = cfg.width ∧
    (gen_pic cfg img show_small_cover).height = cfg.height := by
  simp only [gen_pic]
  by_cases hfit : cfg.background_mode = "fit"
  · rw [if_pos hfit]
    by_cases hneq : img.width ≠ cfg.width ∨ img.height ≠ cfg.height
    · rw [if_pos hneq]
      simp [imageFit, imagePaste, imageBlur, imageResize]
    · rw [if_neg hneq]
      simp [imageCrop, imagePaste, imageBlur, imageResize]
  · rw [if_neg hfit]
    by_cases hrep : cfg.background_mode = "repeat"
    · rw [if_pos hrep, repeat_tiling_fixed]
      simp [imageNew, imagePaste, imageBlur, imageResize]
    · rw [if_neg hrep]
      simp [imageCrop, imagePaste, imageBlur, imageResize]

/-- A representative layout configuration (250×122 canvas). -/
def sampleConfig : Config :=
  ⟨250, 122, 100, 8, 8, 6, 4, 2, "bottom-up", "fit", 2, true, 20, 15⟩

/-- Witness for C5 at a concrete configuration and a source image larger
than the canvas. -/
theorem gen_pic_canvas_dims_witness :
    0 < (⟨640, 480⟩ : PImage).width ∧ 0 < (⟨640, 480⟩ : PImage).height ∧
    (gen_pic sampleConfig ⟨640, 480⟩ true).width = sampleConfig.width ∧
    (gen_pic sampleConfig ⟨640, 480⟩ true).height = sampleConfig.height :=
  ⟨by decide, by decide,
    (gen_pic_canvas_dims sampleConfig ⟨640, 480⟩ true (by decide) (by decide)).1,
    (gen_pic_canvas_dims sampleConfig ⟨640, 480⟩ true (by decide) (by decide)).2⟩

/-! ## C6: bottom-up text anchoring -/

/-- The draw loop visits one position per piece and accumulates one line
height per piece. -/
theorem fitDrawLoop_snd : ∀ (ps : List Seg) (y fs : Int),
    (fitDrawLoop ps y fs).2 = (ps.length : Int) * fs := by
  intro ps
  induction ps with
  | nil => intro y fs; simp [fitDrawLoop]
  | cons p ps ih =>
    intro y fs
    simp only [fitDrawLoop, ih, List.length_cons]
    push_cast
    ring

/-- The draw loop's last draw position is the start plus `(count - 1)` line
heights. -/
theorem fitDrawLoop_last : ∀ (ps : List Seg) (y fs : Int), ps ≠ [] →
    (fitDrawLoop ps y fs).1.getLast? = some (y + ((ps.length : Int) - 1) * fs) := by
  intro ps
  induction ps with
  | nil => intro y fs h; exact absurd rfl h
  | cons p ps ih =>
    intro y fs _
    cases ps with
    | nil => simp [fitDrawLoop]
    | cons q qs =>
      have hl := ih (y + fs) fs (by simp)
      have hshape : (fitDrawLoop (q :: qs) (y + fs) fs).1 =
          (y + fs) :: (fitDrawLoop qs (y + fs + fs) fs).1 := rfl
      have hcons : (fitDrawLoop (p :: q :: qs) y fs).1 =
          y :: (y + fs) :: (fitDrawLoop qs (y + fs + fs) fs).1 := rfl
      rw [hcons, List.getLast?_cons_cons, ← hshape, hl]
      simp only [List.length_cons]
      congr 1
      push_cast
      ring

/-- C6: when the text wraps into `N ≥ 1` lines of height `fs`,
`_fit_text_bottom_up` anchored at `y0` shifts the anchor up by
`(N-1) * fs`, so the last line is drawn exactly at `y0` whatever `N` is,
and the height it reports consuming is `N * fs`. -/
theorem fit_text_bottom_up_anchor (m : String → Nat) (w fuel : Nat)
    (text : Option String) (y0 fs : Int) (N : Nat)
    (hdone : (breakFixStr m w fuel text).2 = true)
    (hN : (breakFixStr m w fuel text).1.length = N) (hpos : 1 ≤ N) :
    (fit_text_bottom_up m w fuel text y0 fs).1.getLast? = some y0 ∧
    (fit_text_bottom_up m w fuel text y0 fs).2 = (N : Int) * fs := by
  unfold fit_text_bottom_up
  have hne : (breakFixStr m w fuel text).1 ≠ [] := by
    intro h
    rw [h] at hN
    simp at hN
    omega
  constructor
  · rw [fitDrawLoop_last _ _ _ hne, hN]
    by_cases h1 : N > 1
    · rw [if_pos h1]
      congr 1
      ring
    · rw [if_neg h1]
      have hN1 : N = 1 := by omega
      subst hN1
      norm_num
  · rw [fitDrawLoop_snd, hN]

/-- Witness for C6: `"hello world"` with a 5-pixel-per-character budget of 5
wraps into two lines; anchored at 100 with line height 10, the last line is
drawn at 100 and 20 pixels of height are consumed. -/
theorem fit_text_bottom_up_anchor_witness :
    (breakFixStr (fun s => s.length) 5 5 (some "hello world")).2 = true ∧
    (breakFixStr (fun s => s.length) 5 5 (some "hello world")).1.length = 2 ∧
    (fit_text_bottom_up (fun s => s.length) 5 5 (some "hello world") 100 10).1.getLast? =
      some 100 ∧
    (fit_text_bottom_up (fun s => s.length) 5 5 (some "hello world") 100 10).2 =
      (2 : Int) * 10 :=
  ⟨by decide, by decide,
    (fit_text_bottom_up_anchor (fun s => s.length) 5 5 (some "hello world") 100 10 2
      (by decide) (by decide) (by decide)).1,
    (fit_text_bottom_up_anchor (fun s => s.length) 5 5 (some "hello world") 100 10 2
      (by decide) (by decide) (by decide)).2⟩

/-! ## C7: idle gallery round-robin -/

/-- Selection traces compose: a trace of `k + n` selections is the trace of
`k` selections followed by the trace of `n` selections from the cursor the
first trace ends with. -/
theorem idle_trace_append (images : List String) (d : String) :
    ∀ k n idx,
      idle_trace images d (k + n) idx =
        ((idle_trace images d k idx).1 ++
           (idle_trace images d n (idle_trace images d k idx).2).1,
         (idle_trace images d n (idle_trace images d k idx).2).2) := by
  intro k
  induction k with
  | zero =>
    intro n idx
    simp [idle_trace]
  | succ k ih =>
    intro n idx
    have hsucc : k + 1 + n = (k + n) + 1 := by omega
    rw [hsucc]
    simp only [idle_trace]
    rw [ih]
    simp

/-- Unfolding one selection of a trace. -/
theorem idle_trace_succ (images : List String) (d : String) (n idx : Nat) :
    idle_trace images d (n + 1) idx =
      ((get_idle_image images d false 0 idx).1 ::
         (idle_trace images d n (get_idle_image images d false 0 idx).2).1,
       (idle_trace images d n (get_idle_image images d false 0 idx).2).2) := rfl

/-- On a non-empty gallery with shuffle disabled, a selection returns the
element at the cursor and advances the cursor modulo the gallery size. -/
theorem get_idle_image_nonempty (images : List String) (d : String) (idx : Nat)
    (h : images ≠ []) :
    get_idle_image images d false 0 idx =
      (images.getD idx "", (idx + 1) % images.length) := by
  unfold get_idle_image
  rw [if_neg (by simp [h])]
  rfl

/-- Walking the gallery from cursor position `l1.length` visits exactly the
suffix `l2`, in order, and leaves the cursor wrapped to 0. -/
theorem idle_trace_visits (d : String) :
    ∀ l2 l1 : List String, l2 ≠ [] →
      idle_trace (l1 ++ l2) d l2.length (l1.length) = (l2, 0) := by
  intro l2
  induction l2 with
  | nil => intro l1 h; exact absurd rfl h
  | cons x l2' ih =>
    intro l1 _
    have hget : (l1 ++ x :: l2').getD l1.length "" = x := by
      rw [List.getD_append_right l1 (x :: l2') "" l1.length (Nat.le_refl _)]
      simp
    cases l2' with
    | nil =>
      have hmod : (l1.length + 1) % (l1 ++ [x]).length = 0 := by
        simp [List.length_append]
      rw [show ([x] : List String).length = 0 + 1 from rfl, idle_trace_succ,
        get_idle_image_nonempty _ _ _ (by simp), hget, hmod]
      rfl
    | cons y l2'' =>
      have hlen : (l1 ++ x :: y :: l2'').length = l1.length + (l2''.length + 2) := by
        simp [List.length_append]
      have hmod : (l1.length + 1) % (l1 ++ x :: y :: l2'').length = l1.length + 1 := by
        rw [hlen]
        exact Nat.mod_eq_of_lt (by omega)
      have hih := ih (l1 ++ [x]) (by simp)
      rw [show (l1 ++ [x]) ++ y :: l2'' = l1 ++ x :: y :: l2'' by simp,
        show (l1 ++ [x]).length = l1.length + 1 by simp] at hih
      rw [List.length_cons, idle_trace_succ,
        get_idle_image_nonempty _ _ _ (by simp), hget, hmod, hih]

/-- C7: with shuffle disabled and a non-empty gallery of size `K`, `K`
consecutive selections return each element exactly once in discovery order
and wrap the cursor back to 0, and the next `K` selections repeat the same
sequence identically. -/
theorem idle_gallery_round_robin (images : List String) (d : String)
    (hne : images ≠ []) :
    idle_trace images d images.length 0 = (images, 0) ∧
    (idle_trace images d (2 * images.length) 0).1 = images ++ images := by
  have h1 : idle_trace images d images.length 0 = (images, 0) := by
    have h := idle_trace_visits d images [] hne
    simpa using h
  refine ⟨h1, ?_⟩
  have h2 : 2 * images.length = images.length + images.length := by omega
  rw [h2, idle_trace_append images d images.length images.length 0]
  simp [h1]

/-- Witness for C7 on a three-image gallery. -/
theorem idle_gallery_round_robin_witness :
    (["a.png", "b.png", "c.png"] : List String) ≠ [] ∧
    idle_trace ["a.png", "b.png", "c.png"] "default.png" 3 0 =
      (["a.png", "b.png", "c.png"], 0) ∧
    (idle_trace ["a.png", "b.png", "c.png"] "default.png" 6 0).1 =
      ["a.png", "b.png", "c.png"] ++ ["a.png", "b.png", "c.png"] :=
  ⟨by decide,
    (idle_gallery_round_robin ["a.png", "b.png", "c.png"] "default.png" (by decide)).1,
    (idle_gallery_round_robin ["a.png", "b.png", "c.png"] "default.png" (by decide)).2⟩

/-! ## C8: bounded retry on `unknown` classification -/

/-- Unfolding one wrapper call of the decorated `_get_song_info`. -/
theorem get_song_info_call_succ (src : Nat → SourceResult) (limit fuel count : Nat) :
    get_song_info_call src limit (fuel + 1) count =
      (if count + 1 < limit then
        match src (count + 1) with
        | .track song cover artist => some [song, cover, artist]
        | .episode song cover artist => some [song, cover, artist]
        | .ad => some []
        | .unknown => get_song_info_call src limit fuel (count + 1)
        | .typeErr => get_song_info_call src limit fuel (count + 1)
        | .unsupported _ => some []
        | .nothing => some []
        | .noToken => some []
      else none) := rfl

/-- If the source keeps answering `unknown`, every wrapper call returns
`None`, whatever the remaining fuel and the current shared counter. -/
theorem get_song_info_call_all_unknown (src : Nat → SourceResult)
    (h : ∀ n, src n = SourceResult.unknown) :
    ∀ fuel count, get_song_info_call src 10 fuel count = none := by
  intro fuel
  induction fuel with
  | zero => intro count; rfl
  | succ n ih =>
    intro count
    rw [get_song_info_call_succ, h (count + 1)]
    simp [ih]

/-- C8: an `unknown` classification makes `_get_song_info` retry itself
immediately within the same tick, the retry is bounded by the decorator's
fixed ceiling of 10 on the shared call counter, and when every attempt
keeps reporting `unknown` the poll returns `None` — falsy under the loop's
`if song_request:` test, hence treated as idle rather than failing. -/
theorem get_song_info_bounded_retry (src : Nat → SourceResult) :
    ((∀ n, src n = SourceResult.unknown) →
      get_song_info src = none ∧ truthy (get_song_info src) = false) ∧
    (∀ song cover artist, src 1 = SourceResult.unknown →
      src 2 = SourceResult.track song cover artist →
      get_song_info src = some [song, cover, artist]) := by
  constructor
  · intro h
    have hnone : get_song_info src = none :=
      get_song_info_call_all_unknown src h 10 0
    exact ⟨hnone, by rw [hnone]; rfl⟩
  · intro song cover artist h1 h2
    have e1 : get_song_info src = get_song_info_call src 10 9 1 := by
      rw [get_song_info, show (10 : Nat) = 9 + 1 from rfl, get_song_info_call_succ, h1]
      norm_num
    rw [e1, show (9 : Nat) = 8 + 1 from rfl, get_song_info_call_succ, h2]
    norm_num

/-- Witness for C8: a source stuck on `unknown` degrades to `None` (idle),
and a source that answers `unknown` once then a track yields that track in
the same poll. -/
theorem get_song_info_bounded_retry_witness :
    (get_song_info (fun _ => SourceResult.unknown) = none ∧
     truthy (get_song_info (fun _ => SourceResult.unknown)) = false) ∧
    get_song_info
        (fun n => if n = 1 then SourceResult.unknown
                  else SourceResult.track "Song" "http://cover" "Artist") =
      some ["Song", "http://cover", "Artist"] :=
  ⟨(get_song_info_bounded_retry (fun _ => SourceResult.unknown)).1 (fun _ => rfl),
    (get_song_info_bounded_retry
        (fun n => if n = 1 then SourceResult.unknown
                  else SourceResult.track "Song" "http://cover" "Artist")).2
      "Song" "http://cover" "Artist" rfl rfl⟩

/-! ## C9: the bounded idle wait exits early -/

/-- If the polls of increments `1 .. i-1` are falsy and increment `i`'s
poll is truthy, the idle-wait loop performs exactly the increments
`k .. i` when entered at increment `k` with the matching elapsed time. -/
theorem idle_wait_sleeps_early (poll : Nat → Bool) (t i : Nat)
    (hprev : ∀ j < i, 1 ≤ j → poll j = false) (hpi : poll i = true)
    (ht : 5 * (i - 1) < t) :
    ∀ fuel k elapsed, 1 ≤ k → k ≤ i → elapsed = 5 * (k - 1) →
      i + 1 ≤ fuel + k →
      idle_wait_sleeps poll t fuel elapsed k = List.replicate (i - k + 1) 5 := by
  intro fuel
  induction fuel with
  | zero => intro k elapsed hk1 hki _ hfk; omega
  | succ n ih =>
    intro k elapsed hk1 hki helapsed hfk
    have helt : elapsed < t := by
      have : 5 * (k - 1) ≤ 5 * (i - 1) := by omega
      omega
    rw [idle_wait_sleeps, if_pos helt]
    by_cases hk : k = i
    · rw [hk, hpi]
      have h11 : i - i + 1 = 1 := by omega
      rw [h11]
      simp
    · have hklt : k < i := by omega
      rw [hprev k hklt hk1]
      have hrec := ih (k + 1) (elapsed + 5) (by omega) (by omega) (by omega) (by omega)
      simp only [Bool.false_eq_true, if_false]
      rw [hrec]
      have hsucc2 : i - k + 1 = (i - (k + 1) + 1) + 1 := by omega
      rw [hsucc2]
      simp [List.replicate_succ]

/-- C9: in an idle iteration, if the `i`-th 5-unit increment's poll sees a
track (and no earlier one did, the wait having room to reach increment
`i`), the wait stops right after that increment — the iteration sleeps
exactly `i` increments of 5 units, `5 * i` units in total — and the loop's
trailing fixed delay is skipped (the emitted sleeps are the increments
alone); when instead every poll stays falsy, e.g. over a 300-unit bound,
the wait runs its full 60 increments and the trailing delay is skipped
just the same. -/
theorem idle_wait_early_exit (poll : Nat → Bool) (t delay i : Nat)
    (hi : 1 ≤ i) (hprev : ∀ j < i, 1 ≤ j → poll j = false)
    (hpi : poll i = true) (ht : 5 * (i - 1) < t) :
    (main_iter_sleeps false poll t delay = List.replicate i 5 ∧
     (main_iter_sleeps false poll t delay).sum = 5 * i) ∧
    main_iter_sleeps false (fun _ => false) 300 delay = List.replicate 60 5 := by
  have hmain : main_iter_sleeps false poll t delay =
      idle_wait_sleeps poll t (t + 1) 0 1 := rfl
  have h1 : idle_wait_sleeps poll t (t + 1) 0 1 = List.replicate (i - 1 + 1) 5 :=
    idle_wait_sleeps_early poll t i hprev hpi ht (t + 1) 1 0 (Nat.le_refl 1)
      hi (by omega) (by omega)
  have hi1 : i - 1 + 1 = i := by omega
  refine ⟨⟨?_, ?_⟩, ?_⟩
  · rw [hmain, h1, hi1]
  · rw [hmain, h1, hi1, List.sum_replicate, smul_eq_mul]
    omega
  · show idle_wait_sleeps (fun _ => false) 300 301 0 1 = List.replicate 60 5
    decide

/-- Witness for C9: the 3rd increment's poll sees a track inside a 300-unit
bound — the iteration sleeps `[5, 5, 5]` (15 units), with no trailing
delay of 7 appended. -/
theorem idle_wait_early_exit_witness :
    (fun j => decide (j = 3)) 3 = true ∧
    main_iter_sleeps false (fun j => decide (j = 3)) 300 7 = List.replicate 3 5 ∧
    (main_iter_sleeps false (fun j => decide (j = 3)) 300 7).sum = 5 * 3 ∧
    main_iter_sleeps false (fun _ => false) 300 7 = List.replicate 60 5 := by
  have h := idle_wait_early_exit (fun j => decide (j = 3)) 300 7 3 (by decide)
    (by decide) (by decide) (by decide)
  exact ⟨by decide, h.1.1, h.1.2, h.2⟩

/-! ## C10: whitespace-only text yields one empty segment, one line height -/

/-- Splitting an all-whitespace character list yields no tokens. -/
theorem pySplitChars_all_whitespace :
    ∀ l : List Char, (∀ c ∈ l, c.isWhitespace = true) → pySplitChars l [] = [] := by
  intro l
  induction l with
  | nil => intro _; rfl
  | cons c cs ih =>
    intro h
    have hc : c.isWhitespace = true := h c (List.mem_cons_self c cs)
    show pySplitChars (c :: cs) [] = []
    rw [pySplitChars, if_pos hc]
    exact ih (fun x hx => h x (List.mem_cons_of_mem c hx))

/-- C10: a non-empty all-whitespace string passes `_break_fix`'s emptiness
test but tokenizes to zero tokens, so exactly one segment with empty text
is emitted (and the recursion terminates); `_fit_text_top_down` therefore
consumes exactly one line height for it.  The empty string and `None`, by
contrast, yield no segments and zero height. -/
theorem break_fix_whitespace_only (m : String → Nat) (w fuel : Nat)
    (y0 fs : Int) (s : String) (hfuel : 1 ≤ fuel) (hne : s ≠ "")
    (hws : ∀ c ∈ s.toList, c.isWhitespace = true) :
    ((breakFixStr m w fuel (some s)).1.map Seg.text = [""] ∧
     (breakFixStr m w fuel (some s)).2 = true) ∧
    (fit_text_top_down m w fuel (some s) y0 fs).2 = fs ∧
    ((breakFixStr m w fuel none).1 = [] ∧
     (breakFixStr m w fuel (some "")).1 = [] ∧
     (fit_text_top_down m w fuel none y0 fs).2 = 0 ∧
     (fit_text_top_down m w fuel (some "") y0 fs).2 = 0) := by
  have hsplit : pySplit s = [] := pySplitChars_all_whitespace s.toList hws
  obtain ⟨n, rfl⟩ : ∃ n, fuel = n + 1 := ⟨fuel - 1, by omega⟩
  have hgo : breakFixGo m w (n + 1) [] = ([⟨[], "", m ""⟩], true) := rfl
  have hstr : breakFixStr m w (n + 1) (some s) = ([⟨[], "", m ""⟩], true) := by
    rw [breakFixStr, if_neg hne, hsplit, hgo]
  refine ⟨⟨?_, ?_⟩, ?_, rfl, ?_, rfl, ?_⟩
  · rw [hstr]; rfl
  · rw [hstr]
  · rw [fit_text_top_down, hstr]
    show (0 : Int) + fs = fs
    omega
  · rw [breakFixStr, if_pos rfl]
  · rw [fit_text_top_down, breakFixStr, if_pos rfl]
    rfl

/-- Witness for C10 at the one-space string. -/
theorem break_fix_whitespace_only_witness :
    (" " : String) ≠ "" ∧
    (((breakFixStr (fun s => s.length) 5 3 (some " ")).1.map Seg.text = [""] ∧
      (breakFixStr (fun s => s.length) 5 3 (some " ")).2 = true) ∧
     (fit_text_top_down (fun s => s.length) 5 3 (some " ") 0 12).2 = 12 ∧
     ((breakFixStr (fun s => s.length) 5 3 none).1 = [] ∧
      (breakFixStr (fun s => s.length) 5 3 (some "")).1 = [] ∧
      (fit_text_top_down (fun s => s.length) 5 3 none 0 12).2 = 0 ∧
      (fit_text_top_down (fun s => s.length) 5 3 (some "") 0 12).2 = 0)) :=
  ⟨by decide,
    break_fix_whitespace_only (fun s => s.length) 5 3 0 12 " " (by decide)
      (by decide) (by decide)⟩

end Spotipi
